import Mathlib

/-!
Verification of the repository-maintenance scripts under `.github/scripts/`:

* `get_release_version.py` — derives `REL_VERSION`, `CHART_VERSION`,
  `REL_CHANNEL` (and possibly `UPDATE_RELEASE`) from the `GITHUB_REF`
  source-control reference string;
* `validate_semver.py` — exits 0/1 according to whether its argument
  matches the semantic-versioning grammar;
* `transform_test_results.py` — rewrites `file`/`line` attributes of
  failed testcases inside a junit test report;
* `publish-test-terraform-recipes.py` — zips each subdirectory of a
  recipe root and replaces a Kubernetes ConfigMap with one entry per zip.

The scripts work on strings via Python regular expressions; the embedding
below models each anchored regular expression by an equivalent executable
matcher on `List Char`, including Python's rule that a final `$` also
matches just before one trailing newline.
-/

namespace RadiusScripts

/-! ## Generic list/string helpers used by the regex embeddings -/

/-- Python `re` semantics for a trailing `$` anchor: the anchor matches at
the very end of the string or just before a single final newline, so an
anchored pattern whose character classes exclude `'\n'` matches `s` exactly
when it matches `s` with one trailing newline removed. -/
def dropTrailingNewline (s : List Char) : List Char :=
  if s.getLast? = some '\n' then s.dropLast else s

/-- Match a literal prefix; on success return the remainder of the input. -/
def dropPrefixL : List Char → List Char → Option (List Char)
  | [], s => some s
  | _ :: _, [] => none
  | p :: ps, c :: cs => if c = p then dropPrefixL ps cs else none

/-- Split at the first occurrence of `sep`: returns the part before it and,
if `sep` occurs, the part after it. -/
def splitAtFirst (sep : Char) : List Char → List Char × Option (List Char)
  | [] => ([], none)
  | c :: cs =>
    if c = sep then ([], some cs)
    else
      let r := splitAtFirst sep cs
      (c :: r.1, r.2)

/-- Split into the (possibly empty) segments between occurrences of `sep`. -/
def splitOnChar (sep : Char) : List Char → List (List Char)
  | [] => [[]]
  | c :: cs =>
    let r := splitOnChar sep cs
    if c = sep then [] :: r
    else
      match r with
      | [] => [[c]]
      | g :: gs => (c :: g) :: gs

/-! ## The semver grammar

Both `get_release_version.py` and `validate_semver.py` use the regular
expression suggested at semver.org:

  `(0|[1-9]\d*) "." (0|[1-9]\d*) "." (0|[1-9]\d*)`
  `("-" prerelease)? ("+" buildmetadata)?`

where `prerelease` is a dot-separated list of identifiers, each either a
numeral without leading zeros or a nonempty `[0-9a-zA-Z-]` word containing
at least one non-digit, and `buildmetadata` is a dot-separated list of
nonempty `[0-9a-zA-Z-]` words.  Because the numeric components contain no
`'-'`/`'+'`/`'.'`, and the identifiers contain no `'+'`/`'.'`, a string
matches the anchored regex exactly when splitting it at the first `'+'`,
then the first `'-'`, then at every `'.'` yields components in the classes
below; that equivalence is what the executable matcher implements. -/

/-- Character class `[0-9a-zA-Z-]` of the semver identifier characters. -/
def isIdentChar (c : Char) : Bool :=
  c.isDigit || c.isAlpha || c = '-'

/-- The regex fragment `0|[1-9]\d*`: a decimal numeral without leading
zeros (used for major/minor/patch and for numeric prerelease identifiers);
`[1-9]` is the digit class minus `'0'`. -/
def isNumIdent (l : List Char) : Bool :=
  l == ['0'] ||
    match l with
    | [] => false
    | c :: cs => c.isDigit && !(c == '0') && cs.all Char.isDigit

/-- The regex fragment `0|[1-9]\d*|\d*[a-zA-Z-][0-9a-zA-Z-]*` for one
prerelease identifier: a numeral without leading zeros, or a nonempty
word over `[0-9a-zA-Z-]` containing at least one non-digit. -/
def isPreIdent (s : List Char) : Bool :=
  isNumIdent s || (!s.isEmpty && s.all isIdentChar && s.any fun c => !c.isDigit)

/-- The regex fragment `[0-9a-zA-Z-]+` for one build-metadata identifier. -/
def isBuildIdent (s : List Char) : Bool :=
  !s.isEmpty && s.all isIdentChar

/-- Check an optional dot-separated identifier section against `f`. -/
def checkIdents (f : List Char → Bool) : Option (List Char) → Bool
  | none => true
  | some p => (splitOnChar '.' p).all f

/-- Named groups of the semver regex. -/
structure SemverGroups where
  major : List Char
  minor : List Char
  patch : List Char
  prerelease : Option (List Char)
  buildmetadata : Option (List Char)
  deriving Repr, DecidableEq

/-- Full-string match of the (unanchored part of the) semver regex,
returning its named groups. -/
def semverMatch (s : List Char) : Option SemverGroups :=
  let sp := splitAtFirst '+' s
  let sm := splitAtFirst '-' sp.1
  match splitOnChar '.' sm.1 with
  | [ma, mi, pa] =>
    if isNumIdent ma && isNumIdent mi && isNumIdent pa
        && checkIdents isPreIdent sm.2 && checkIdents isBuildIdent sp.2
    then some ⟨ma, mi, pa, sm.2, sp.2⟩
    else none
  | _ => none

/-! ## `get_release_version.py` -/

/-- Named groups of `tagRefRegex`
`^refs/tags/v(?P<version>0|M.m.p(-pre)?(+build)?)$`: when the bare
alternative `0` matches, the inner groups are all absent (Python `None`). -/
structure TagGroups where
  version : List Char
  major : Option (List Char)
  minor : Option (List Char)
  patch : Option (List Char)
  prerelease : Option (List Char)
  buildmetadata : Option (List Char)
  deriving Repr, DecidableEq

/-- `re.search(tagRefRegex, s)` for the anchored tag pattern of
`get_release_version.py`. -/
def tagRefMatch (s : String) : Option TagGroups :=
  let l := dropTrailingNewline s.data
  match dropPrefixL "refs/tags/v".data l with
  | none => none
  | some rest =>
    if rest = ['0'] then
      some ⟨['0'], none, none, none, none, none⟩
    else
      match semverMatch rest with
      | none => none
      | some g => some ⟨rest, some g.major, some g.minor, some g.patch,
                        g.prerelease, g.buildmetadata⟩

/-- Split at the last `'/'` (the greedy reading of `(.*)/(.*)`): returns
(group 1, group 2) when a `'/'` is present. -/
def splitAtLastSlash (l : List Char) : Option (List Char × List Char) :=
  let r := splitAtFirst '/' l.reverse
  match r.2 with
  | none => none
  | some revA => some (revA.reverse, r.1.reverse)

/-- `re.search(pullRefRegex, s)` for `^refs/pull/(.*)/(.*)$`: `.` does not
match a newline, group 1 is greedy, and the final `$` tolerates one
trailing newline. -/
def pullRefMatch (s : String) : Option (List Char × List Char) :=
  let l := dropTrailingNewline s.data
  match dropPrefixL "refs/pull/".data l with
  | none => none
  | some rest =>
    if rest.contains '\n' then none
    else splitAtLastSlash rest

/-- Python `"{}"` formatting of a possibly-absent regex group: `None`
prints as the string `"None"`. -/
def pyFormatOpt : Option (List Char) → String
  | none => "None"
  | some l => l.asString

/-- The module body of `get_release_version.py`: given the optional
`GITHUB_REF`, the list of `KEY=VALUE` lines appended to the `GITHUB_ENV`
file, in order, modelled as key/value pairs. -/
def getReleaseVersion (gitRef : Option String) : List (String × String) :=
  match gitRef with
  | none =>
    [("REL_VERSION", "edge"), ("CHART_VERSION", "0.42.42-dev"),
     ("REL_CHANNEL", "edge")]
  | some ref =>
    match pullRefMatch ref with
    | some g =>
      [("REL_VERSION", "pr-" ++ g.1.asString),
       ("CHART_VERSION", "0.42.42-pr-" ++ g.1.asString),
       ("REL_CHANNEL", "edge")]
    | none =>
      match tagRefMatch ref with
      | some m =>
        if m.prerelease.isNone then
          [("REL_VERSION", m.version.asString),
           ("CHART_VERSION", m.version.asString),
           ("REL_CHANNEL", pyFormatOpt m.major ++ "." ++ pyFormatOpt m.minor),
           ("UPDATE_RELEASE", "true")]
        else
          [("REL_VERSION", m.version.asString),
           ("CHART_VERSION", m.version.asString),
           ("REL_CHANNEL", m.version.asString)]
      | none =>
        [("REL_VERSION", "edge"), ("CHART_VERSION", "0.42.42-dev"),
         ("REL_CHANNEL", "edge")]

/-! ## `validate_semver.py` -/

/-- `pattern.search(version)` for the anchored `SEMVER_REGEX` of
`validate_semver.py`: an exact match of the semver grammar after removal
of at most one trailing newline (Python `$`). -/
def semverSearch (v : String) : Bool :=
  (semverMatch (dropTrailingNewline v.data)).isSome

/-- The `main` function of `validate_semver.py`: process exit status for a
given `sys.argv` (`argv[0]` is the script name). -/
def validate_semver_main (argv : List String) : Nat :=
  match argv with
  | [_, version] => if semverSearch version then 0 else 1
  | _ => 1

/-! ## Claim-side definitions (spec wording)

The claims describe the patterns and outputs in their own words; these
definitions follow the claims, to be compared with the source embedding. -/

/-- Spec wording: a string that is exactly a semantic version
(major.minor.patch, optional prerelease label, optional build metadata,
and nothing else in the string). -/
def semverStr (v : String) : Bool :=
  (semverMatch v.data).isSome

/-- Spec wording of the claimed version-tag pattern `refs/tags/v<semver>`:
the string is exactly the literal `refs/tags/v` followed by a semantic
version. -/
def tagVersionPattern (s : String) : Bool :=
  match dropPrefixL "refs/tags/v".data s.data with
  | some rest => (semverMatch rest).isSome
  | none => false

/-- Spec wording of the claimed pull-request pattern `refs/pull/<n>/<...>`:
the string begins with the literal `refs/pull/`. Every reading of the
claimed pattern requires at least this. -/
def pullPatternPrefix (s : String) : Bool :=
  (dropPrefixL "refs/pull/".data s.data).isSome

/-- Spec wording: the fallback default outputs (release version `edge`,
chart version `0.42.42-dev`, channel `edge`). -/
def defaultOutputs : List (String × String) :=
  [("REL_VERSION", "edge"), ("CHART_VERSION", "0.42.42-dev"),
   ("REL_CHANNEL", "edge")]

/-- Spec wording: the pull-request outputs for pull request number `n`. -/
def prOutputs (n : String) : List (String × String) :=
  [("REL_VERSION", "pr-" ++ n), ("CHART_VERSION", "0.42.42-pr-" ++ n),
   ("REL_CHANNEL", "edge")]

/-- Spec wording: the pre-release outputs (release version, chart version
and channel all equal to the tagged version). -/
def prereleaseOutputs (v : String) : List (String × String) :=
  [("REL_VERSION", v), ("CHART_VERSION", v), ("REL_CHANNEL", v)]

/-- Spec wording: the full-release outputs for tagged version `v` with
release channel `ch`, including the `UPDATE_RELEASE=true` marker. -/
def fullReleaseOutputs (v ch : String) : List (String × String) :=
  [("REL_VERSION", v), ("CHART_VERSION", v), ("REL_CHANNEL", ch),
   ("UPDATE_RELEASE", "true")]

/-- A reference is a tagged full release when the tag regex matches it
with no prerelease group. -/
def isFullReleaseTag : Option String → Bool
  | none => false
  | some s =>
    match tagRefMatch s with
    | some g => g.prerelease.isNone
    | none => false

/-! ## `transform_test_results.py`

The script parses the input junit file into an element tree, rewrites the
`file`/`line` attributes of failed testcases in place, and writes the tree
back out.  Elements are modelled by their tag, attribute map, text (which
`xml.etree` reports as `None` for an element with no text, hence
`Option String`) and child list. -/

/-- An element of the parsed XML document. -/
structure XmlElem where
  tag : String
  attrib : List (String × String)
  text : Option String
  children : List XmlElem

/-- The literal part of the pattern `\tError Trace:\t(.*):(\d+)`. -/
def errorTraceLit : List Char := "\tError Trace:\t".data

/-- Match `(.*):(\d+)` against the text right after the literal, with
Python semantics: `.` stops at a newline, the greedy `(.*)` puts the last
`':'`-followed-by-a-digit split point as late as possible, and `(\d+)`
then takes the maximal digit run. -/
def matchTraceAt (rest : List Char) : Option (List Char × List Char) :=
  let line := rest.takeWhile (fun c => !(c == '\n'))
  let ks := (List.range line.length).filter fun k =>
    line.get? k == some ':' && ((line.get? (k + 1)).map Char.isDigit).getD false
  match ks.getLast? with
  | none => none
  | some k => some (line.take k, (line.drop (k + 1)).takeWhile Char.isDigit)

/-- `pattern.search` for `\tError Trace:\t(.*):(\d+)`: try every start
position from the left; at each occurrence of the literal, attempt the
rest of the pattern, else keep scanning. -/
def searchErrorTrace : List Char → Option (List Char × List Char)
  | [] => none
  | c :: cs =>
    match dropPrefixL errorTraceLit (c :: cs) with
    | some rest =>
      (match matchTraceAt rest with
       | some g => some g
       | none => searchErrorTrace cs)
    | none => searchErrorTrace cs

/-- `testcase.find('./failure')`: the first child tagged `failure`. -/
def findFailure (children : List XmlElem) : Option XmlElem :=
  children.find? fun c => c.tag == "failure"

/-- Python dict assignment `attrib[k] = v`: replace the value of an
existing key in place, else append the new pair. -/
def setAttr (attrib : List (String × String)) (k v : String) :
    List (String × String) :=
  if attrib.any fun p => p.1 == k then
    attrib.map fun p => if p.1 == k then (k, v) else p
  else attrib ++ [(k, v)]

/-- Replace the first child tagged `failure` (the one `find` returned and
the loop mutates). -/
def replaceFirstFailure : List XmlElem → XmlElem → List XmlElem
  | [], _ => []
  | c :: cs, f =>
    if c.tag == "failure" then f :: cs else c :: replaceFirstFailure cs f

/-- The loop body of `main` for one testcase element.  When the failure
element has no text, `pattern.search(None)` raises `TypeError`, modelled
as the error case. -/
def transformTestcase (repoRoot : String) (tc : XmlElem) : Except String XmlElem :=
  match findFailure tc.children with
  | none => .ok tc
  | some failure =>
    match failure.text with
    | none => .error "TypeError: expected string or bytes-like object"
    | some t =>
      match searchErrorTrace t.data with
      | none => .ok tc
      | some g =>
        if repoRoot.data.isPrefixOf g.1 then
          let fileRel := (g.1.drop (repoRoot.length + 1)).asString
          let lineStr := g.2.asString
          .ok { tc with
                attrib := setAttr (setAttr tc.attrib "file" fileRel) "line" lineStr,
                children := replaceFirstFailure tc.children
                  { failure with
                    attrib := setAttr (setAttr failure.attrib "file" fileRel)
                      "line" lineStr } }
        else .ok tc

/-- Run `f` over a list left to right, stopping at the first raised
exception (the Python `for` loop raises out of `main`). -/
def exceptList (f : XmlElem → Except String XmlElem) :
    List XmlElem → Except String (List XmlElem)
  | [] => .ok []
  | x :: xs =>
    match f x with
    | .error e => .error e
    | .ok y =>
      match exceptList f xs with
      | .error e => .error e
      | .ok ys => .ok (y :: ys)

/-- Process one child of the document root: `findall('./testsuite/testcase')`
visits the `testcase` children of each `testsuite` child, in document
order; other elements are untouched. -/
def transformSuite (repoRoot : String) (su : XmlElem) : Except String XmlElem :=
  if su.tag == "testsuite" then
    match exceptList
        (fun tc => if tc.tag == "testcase" then transformTestcase repoRoot tc
                   else .ok tc) su.children with
    | .error e => .error e
    | .ok cs => .ok { su with children := cs }
  else .ok su

/-- The whole in-place rewriting pass of `main` over the parsed tree. -/
def transformDoc (repoRoot : String) (doc : XmlElem) : Except String XmlElem :=
  match exceptList (transformSuite repoRoot) doc.children with
  | .error e => .error e
  | .ok cs => .ok { doc with children := cs }

/-- The input file as `main` can observe it. -/
inductive InputFile where
  | missing
  | empty
  | malformed
  | wellFormed (doc : XmlElem)

/-- Outcome of one run of `main`: returned without writing the output
file, wrote the transformed document, or raised an uncaught exception. -/
inductive RunResult where
  | skipped
  | wrote (doc : XmlElem)
  | raised (msg : String)

/-- The `main` function of `transform_test_results.py`, after argument
parsing: a missing, empty or unparsable input file is skipped (the
`ParseError`/`Exception` handlers return), a parsed one is rewritten and
written back, and an exception in the rewriting loop propagates. -/
def transform_main (repoRoot : String) (input : InputFile) : RunResult :=
  match input with
  | .missing => .skipped
  | .empty => .skipped
  | .malformed => .skipped
  | .wellFormed doc =>
    match transformDoc repoRoot doc with
    | .error e => .raised e
    | .ok d => .wrote d

/-! ### Claim-side transformation (spec wording for C3)

The claim describes the rewriting as a total per-testcase update: a
testcase whose failure text yields an `Error Trace` path under the
repository root gets repository-relative `file` and `line` attributes on
itself and on the failure element; every other testcase is unchanged. -/

/-- Spec wording: the update of a single testcase element. -/
def specUpdateTestcase (repoRoot : String) (tc : XmlElem) : XmlElem :=
  match findFailure tc.children with
  | none => tc
  | some failure =>
    match failure.text with
    | none => tc
    | some t =>
      match searchErrorTrace t.data with
      | none => tc
      | some g =>
        if repoRoot.data.isPrefixOf g.1 then
          let fileRel := (g.1.drop (repoRoot.length + 1)).asString
          let lineStr := g.2.asString
          { tc with
            attrib := setAttr (setAttr tc.attrib "file" fileRel) "line" lineStr,
            children := replaceFirstFailure tc.children
              { failure with
                attrib := setAttr (setAttr failure.attrib "file" fileRel)
                  "line" lineStr } }
        else tc

/-- Spec wording: the whole-document transformation. -/
def specTransformDoc (repoRoot : String) (doc : XmlElem) : XmlElem :=
  { doc with
    children := doc.children.map fun su =>
      if su.tag == "testsuite" then
        { su with
          children := su.children.map fun tc =>
            if tc.tag == "testcase" then specUpdateTestcase repoRoot tc else tc }
      else su }

/-- Every failure element the transformer examines (the first `failure`
child of a `testsuite`/`testcase` element) carries text. -/
def examinedTextOk (tc : XmlElem) : Bool :=
  match findFailure tc.children with
  | none => true
  | some f => f.text.isSome

/-- The document-level form of `examinedTextOk`. -/
def docTextOk (doc : XmlElem) : Bool :=
  doc.children.all fun su =>
    !(su.tag == "testsuite") ||
      su.children.all fun tc => !(tc.tag == "testcase") || examinedTextOk tc

/-! ### Concrete documents used by the C3/C4 results -/

/-- A failure element with a matching error trace in its text. -/
def goodFailure : XmlElem :=
  { tag := "failure"
    attrib := [("message", "assertion failed")]
    text := some "Test failed\n\tError Trace:\t/repo/pkg/util_test.go:42\n"
    children := [] }

/-- A failure element without any text (for example `<failure/>`). -/
def emptyFailure : XmlElem :=
  { tag := "failure", attrib := [], text := none, children := [] }

/-- A testcase whose failure text matches the error-trace pattern. -/
def goodTestcase : XmlElem :=
  { tag := "testcase"
    attrib := [("name", "TestGood")]
    text := none
    children := [goodFailure] }

/-- A testcase whose failure element has no text. -/
def badTestcase : XmlElem :=
  { tag := "testcase"
    attrib := [("name", "TestBad")]
    text := none
    children := [emptyFailure] }

/-- A well-formed report containing a matching testcase followed by one
whose failure element has no text. -/
def c3Doc : XmlElem :=
  { tag := "testsuites"
    attrib := []
    text := none
    children :=
      [{ tag := "testsuite", attrib := [], text := none,
         children := [goodTestcase, badTestcase] }] }

/-- A well-formed report whose only testcase has a text-less failure. -/
def c4Doc : XmlElem :=
  { tag := "testsuites"
    attrib := []
    text := none
    children :=
      [{ tag := "testsuite", attrib := [], text := none,
         children := [badTestcase] }] }

/-- A well-formed report with one matching testcase, one testcase whose
trace path is outside the repository root, and one without a failure. -/
def c3WitnessDoc : XmlElem :=
  { tag := "testsuites"
    attrib := []
    text := none
    children :=
      [{ tag := "testsuite", attrib := [], text := none,
         children :=
          [goodTestcase,
           { tag := "testcase", attrib := [("name", "TestElsewhere")],
             text := none,
             children :=
              [{ tag := "failure", attrib := [],
                 text := some "\tError Trace:\t/other/x_test.go:7\n",
                 children := [] }] },
           { tag := "testcase", attrib := [("name", "TestPassing")],
             text := none, children := [] }] }] }

/-! ## `publish-test-terraform-recipes.py`

The script zips each immediate subdirectory of the recipe root, deletes
the target ConfigMap (`--ignore-not-found=true`) and recreates it with one
`<recipe name>.zip` entry per zip file.  Directory trees and zip payloads
are modelled concretely; `shutil.make_archive` becomes a constructor. -/

/-- Contents of a recipe directory: relative file path and file contents. -/
abbrev DirTree := List (String × String)

/-- A zip archive of a directory tree (`shutil.make_archive(..., 'zip', d)`). -/
structure Zip where
  tree : DirTree
  deriving DecidableEq, Repr

/-- One entry of `os.scandir(recipe_root)`. -/
structure DirEntry where
  name : String
  isDir : Bool
  tree : DirTree
  deriving DecidableEq, Repr

def makeZipArchive (t : DirTree) : Zip := ⟨t⟩

/-- The data of one ConfigMap: key ↦ file contents. -/
abbrev ConfigData := List (String × Zip)

/-- The cluster's ConfigMaps, keyed by (namespace, name). -/
abbrev Cluster := List ((String × String) × ConfigData)

/-- A kubectl invocation issued against the cluster. -/
inductive KubeCmd where
  | delete (ns nm : String)
  | create (ns nm : String) (entries : ConfigData)
  deriving DecidableEq, Repr

/-- `kubectl delete configmap <nm> --namespace <ns> --ignore-not-found=true`. -/
def kubectlDeleteConfigMap (cl : Cluster) (ns nm : String) : Cluster :=
  cl.filter fun e => !(e.1.1 == ns && e.1.2 == nm)

/-- `kubectl create configmap <nm> --namespace <ns> --from-file=...`:
fails when the object already exists. -/
def kubectlCreateConfigMap (cl : Cluster) (ns nm : String)
    (entries : ConfigData) : Except String Cluster :=
  if cl.any fun e => e.1.1 == ns && e.1.2 == nm then .error "AlreadyExists"
  else .ok (cl ++ [((ns, nm), entries)])

/-- Python dict assignment `config_entries[basename] = zipfile`: overwrite
in place or append. -/
def dictInsert (d : ConfigData) (k : String) (v : Zip) : ConfigData :=
  if d.any fun p => p.1 == k then
    d.map fun p => if p.1 == k then (k, v) else p
  else d ++ [(k, v)]

/-- The `config_entries` dict: one zip per recipe directory, in scandir
order. -/
def configEntriesOf (rootEntries : List DirEntry) : ConfigData :=
  (rootEntries.filter fun e => e.isDir).foldl
    (fun d e => dictInsert d e.name (makeZipArchive e.tree)) []

/-- The `--from-file=<name>.zip=<zipfile>` arguments of the create call. -/
def publishEntries (rootEntries : List DirEntry) : ConfigData :=
  (configEntriesOf rootEntries).map fun p => (p.1 ++ ".zip", p.2)

/-- Result of one run of the publisher: its exit status, the kubectl
commands it issued, and the resulting cluster state. -/
structure PubResult where
  exitCode : Nat
  commands : List KubeCmd
  cluster : Cluster
  deriving DecidableEq, Repr

/-- The module body of `publish-test-terraform-recipes.py` after argument
parsing: list the recipe subdirectories, exit 1 if there are none, else
zip each one, delete the ConfigMap and recreate it; a failing kubectl call
raises `CalledProcessError`, terminating the process with a nonzero
status. -/
def publish (rootEntries : List DirEntry) (ns nm : String) (cl : Cluster) :
    PubResult :=
  if (rootEntries.filter fun e => e.isDir).isEmpty then
    { exitCode := 1, commands := [], cluster := cl }
  else
    match kubectlCreateConfigMap (kubectlDeleteConfigMap cl ns nm) ns nm
        (publishEntries rootEntries) with
    | .error _ =>
      { exitCode := 1
        commands := [.delete ns nm, .create ns nm (publishEntries rootEntries)]
        cluster := kubectlDeleteConfigMap cl ns nm }
    | .ok cl2 =>
      { exitCode := 0
        commands := [.delete ns nm, .create ns nm (publishEntries rootEntries)]
        cluster := cl2 }

/-- Look up a ConfigMap on the cluster. -/
def configLookup (cl : Cluster) (ns nm : String) : Option ConfigData :=
  (cl.find? fun e => e.1.1 == ns && e.1.2 == nm).map fun e => e.2

/-! ### Concrete data for the C5/C10 witnesses -/

def redisTree : DirTree := [("main.tf", "resource redis")]

def postgresTree : DirTree := [("main.tf", "resource postgres")]

/-- A recipe root with two recipe directories and one plain file. -/
def wRecipeRoot : List DirEntry :=
  [⟨"redis", true, redisTree⟩, ⟨"README.md", false, []⟩,
   ⟨"postgres", true, postgresTree⟩]

/-- A recipe root containing no subdirectory. -/
def wEmptyRoot : List DirEntry := [⟨"README.md", false, []⟩]

/-- A cluster that already holds a ConfigMap of the target name with a
stale entry. -/
def wCluster : Cluster :=
  [(("radius-test", "recipes"),
    [("stale.zip", makeZipArchive [("old.tf", "gone")])])]

/-! ## Helper lemmas -/

theorem dropPrefixL_eq_some {p : List Char} :
    ∀ {l r : List Char}, dropPrefixL p l = some r → l = p ++ r := by
  induction p with
  | nil =>
    intro l r h
    simp only [dropPrefixL, Option.some.injEq] at h
    simp [h]
  | cons a as ih =>
    intro l r h
    cases l with
    | nil => simp [dropPrefixL] at h
    | cons c cs =>
      simp only [dropPrefixL] at h
      by_cases hc : c = a
      · rw [if_pos hc] at h
        rw [hc, List.cons_append, ih h]
      · rw [if_neg hc] at h
        exact absurd h (by simp)

theorem tag_lit_no_match_pull (r : List Char) :
    dropPrefixL "refs/tags/v".data ("refs/pull/".data ++ r) = none := rfl

theorem pullRefMatch_def (s : String) :
    pullRefMatch s =
      match dropPrefixL "refs/pull/".data (dropTrailingNewline s.data) with
      | none => none
      | some rest => if rest.contains '\n' then none else splitAtLastSlash rest := rfl

theorem tagRefMatch_def (s : String) :
    tagRefMatch s =
      match dropPrefixL "refs/tags/v".data (dropTrailingNewline s.data) with
      | none => none
      | some rest =>
        if rest = ['0'] then
          some ⟨['0'], none, none, none, none, none⟩
        else
          match semverMatch rest with
          | none => none
          | some g => some ⟨rest, some g.major, some g.minor, some g.patch,
                            g.prerelease, g.buildmetadata⟩ := rfl

/-- A reference that matches the pull-request regex cannot match the tag
regex: their literal parts disagree at the sixth character. -/
theorem tagRefMatch_of_pull {s : String} {p : List Char × List Char}
    (h : pullRefMatch s = some p) : tagRefMatch s = none := by
  rw [pullRefMatch_def] at h
  rw [tagRefMatch_def]
  cases hd : dropPrefixL "refs/pull/".data (dropTrailingNewline s.data) with
  | none => rw [hd] at h; exact absurd h (by simp)
  | some rest => rw [dropPrefixL_eq_some hd, tag_lit_no_match_pull]

theorem dropTrailingNewline_of_getLast {l : List Char}
    (h : ¬ l.getLast? = some '\n') : dropTrailingNewline l = l := by
  unfold dropTrailingNewline
  rw [if_neg h]

theorem dropTrailingNewline_concat (u : List Char) :
    dropTrailingNewline (u ++ ['\n']) = u := by
  unfold dropTrailingNewline
  rw [if_pos (List.getLast?_concat u), List.dropLast_concat]

theorem splitAtFirst_recon (sep : Char) (l : List Char) :
    l = (splitAtFirst sep l).1 ++
      (match (splitAtFirst sep l).2 with | none => [] | some b => sep :: b) := by
  induction l with
  | nil => rfl
  | cons c cs ih =>
    simp only [splitAtFirst]
    by_cases hc : c = sep
    · rw [if_pos hc]
      simp [hc]
    · rw [if_neg hc]
      exact congrArg (c :: ·) ih

theorem splitAtFirst_of_not_mem {sep : Char} {l : List Char} (h : sep ∉ l) :
    splitAtFirst sep l = (l, none) := by
  induction l with
  | nil => rfl
  | cons c cs ih =>
    have hc : ¬ c = sep := fun hcs => h (hcs ▸ List.mem_cons_self c cs)
    have hcs : sep ∉ cs := fun hm => h (List.mem_cons_of_mem c hm)
    simp [splitAtFirst, if_neg hc, ih hcs]

theorem splitOnChar_ne_nil (sep : Char) (l : List Char) : splitOnChar sep l ≠ [] := by
  cases l with
  | nil => simp [splitOnChar]
  | cons c cs =>
    simp only [splitOnChar]
    by_cases hc : c = sep
    · rw [if_pos hc]
      simp
    · rw [if_neg hc]
      cases hr : splitOnChar sep cs <;> simp

theorem splitOnChar_of_not_mem {sep : Char} {l : List Char} (h : sep ∉ l) :
    splitOnChar sep l = [l] := by
  induction l with
  | nil => rfl
  | cons c cs ih =>
    have hc : ¬ c = sep := fun hcs => h (hcs ▸ List.mem_cons_self c cs)
    have hcs : sep ∉ cs := fun hm => h (List.mem_cons_of_mem c hm)
    simp [splitOnChar, if_neg hc, ih hcs]

theorem splitOnChar_append {sep : Char} {xs : List Char} (h : sep ∉ xs)
    (ys : List Char) :
    splitOnChar sep (xs ++ sep :: ys) = xs :: splitOnChar sep ys := by
  induction xs with
  | nil => simp [splitOnChar]
  | cons c cs ih =>
    have hc : ¬ c = sep := fun hcs => h (hcs ▸ List.mem_cons_self c cs)
    have hcs : sep ∉ cs := fun hm => h (List.mem_cons_of_mem c hm)
    rw [List.cons_append]
    simp only [splitOnChar, if_neg hc, ih hcs]

theorem splitOnChar_mem {sep c : Char} {l : List Char} (h : c ∈ l) :
    c = sep ∨ ∃ p ∈ splitOnChar sep l, c ∈ p := by
  induction l with
  | nil => cases h
  | cons d ds ih =>
    rcases List.mem_cons.mp h with rfl | hds
    · by_cases hd : c = sep
      · exact Or.inl hd
      · right
        cases hr : splitOnChar sep ds with
        | nil => exact absurd hr (splitOnChar_ne_nil sep ds)
        | cons g gs =>
          exact ⟨c :: g, by simp [splitOnChar, if_neg hd, hr],
            List.mem_cons_self c g⟩
    · rcases ih hds with h1 | ⟨p, hp, hcp⟩
      · exact Or.inl h1
      · right
        by_cases hd : d = sep
        · have hmem : p ∈ splitOnChar sep (d :: ds) := by
            simp only [splitOnChar, if_pos hd]
            exact List.mem_cons_of_mem _ hp
          exact ⟨p, hmem, hcp⟩
        · cases hr : splitOnChar sep ds with
          | nil => exact absurd hr (splitOnChar_ne_nil sep ds)
          | cons g gs =>
            rw [hr] at hp
            rcases List.mem_cons.mp hp with rfl | hgs
            · exact ⟨d :: p, by simp [splitOnChar, if_neg hd, hr],
                List.mem_cons_of_mem d hcp⟩
            · have hmem : p ∈ splitOnChar sep (d :: ds) := by
                simp only [splitOnChar, if_neg hd, hr]
                exact List.mem_cons_of_mem _ hgs
              exact ⟨p, hmem, hcp⟩

theorem isNumIdent_all_digit {l : List Char} (h : isNumIdent l = true) :
    ∀ c ∈ l, c.isDigit = true := by
  simp only [isNumIdent, Bool.or_eq_true, beq_iff_eq] at h
  rcases h with rfl | h
  · intro c hc
    simp only [List.mem_singleton] at hc
    subst hc
    decide
  · cases l with
    | nil => simp at h
    | cons d ds =>
      simp only [Bool.and_eq_true] at h
      intro c hc
      rcases List.mem_cons.mp hc with rfl | hm
      · exact h.1.1
      · exact List.all_eq_true.mp h.2 c hm

theorem isPreIdent_all_ident {p : List Char} (h : isPreIdent p = true) :
    ∀ c ∈ p, isIdentChar c = true := by
  simp only [isPreIdent, Bool.or_eq_true, Bool.and_eq_true] at h
  rcases h with h | ⟨⟨_, h⟩, _⟩
  · intro c hc
    simp [isIdentChar, isNumIdent_all_digit h c hc]
  · exact List.all_eq_true.mp h

theorem isBuildIdent_all_ident {p : List Char} (h : isBuildIdent p = true) :
    ∀ c ∈ p, isIdentChar c = true := by
  simp only [isBuildIdent, Bool.and_eq_true] at h
  exact List.all_eq_true.mp h.2

/-- Every character of a string accepted by the semver matcher is an
identifier character or one of the three separators; in particular no
newline, so the final `$` of the anchored semver regex can only exploit
its trailing-newline tolerance, never hide other text. -/
theorem semverMatch_chars {l : List Char} {g : SemverGroups}
    (h : semverMatch l = some g) :
    ∀ c ∈ l, (isIdentChar c || c == '.' || c == '-' || c == '+') = true := by
  intro c hc
  simp only [semverMatch] at h
  split at h
  next ma mi pa heq =>
    split at h
    next hcond =>
      simp only [Bool.and_eq_true] at hcond
      obtain ⟨⟨⟨⟨hma, hmi⟩, hpa⟩, hpre⟩, hbuild⟩ := hcond
      have hl := splitAtFirst_recon '+' l
      rw [hl] at hc
      rcases List.mem_append.mp hc with hc1 | hc2
      · -- inside the part before the first '+'
        have hl2 := splitAtFirst_recon '-' (splitAtFirst '+' l).1
        rw [hl2] at hc1
        rcases List.mem_append.mp hc1 with hc3 | hc4
        · -- inside major.minor.patch
          rcases @splitOnChar_mem '.' _ _ hc3 with rfl | ⟨q, hq, hcq⟩
          · simp
          · rw [heq] at hq
            simp only [List.mem_cons, List.not_mem_nil, or_false] at hq
            have hdig : c.isDigit = true := by
              rcases hq with rfl | rfl | rfl
              · exact isNumIdent_all_digit hma c hcq
              · exact isNumIdent_all_digit hmi c hcq
              · exact isNumIdent_all_digit hpa c hcq
            simp [isIdentChar, hdig]
        · -- the '-' separator or the prerelease section
          cases hm : (splitAtFirst '-' (splitAtFirst '+' l).1).2 with
          | none => rw [hm] at hc4; cases hc4
          | some pre =>
            rw [hm] at hc4 hpre
            rcases List.mem_cons.mp hc4 with rfl | hcpre
            · simp
            · rcases @splitOnChar_mem '.' _ _ hcpre with rfl | ⟨q, hq, hcq⟩
              · simp
              · have hq' := List.all_eq_true.mp hpre q hq
                simp [isPreIdent_all_ident hq' c hcq]
      · -- the '+' separator or the build-metadata section
        cases hb : (splitAtFirst '+' l).2 with
        | none => rw [hb] at hc2; cases hc2
        | some build =>
          rw [hb] at hc2 hbuild
          rcases List.mem_cons.mp hc2 with rfl | hcb
          · simp
          · rcases @splitOnChar_mem '.' _ _ hcb with rfl | ⟨q, hq, hcq⟩
            · simp
            · have hq' := List.all_eq_true.mp hbuild q hq
              simp [isBuildIdent_all_ident hq' c hcq]
    next => exact absurd h (by simp)
  next => exact absurd h (by simp)

theorem semverMatch_no_newline {l : List Char} {g : SemverGroups}
    (h : semverMatch l = some g) : '\n' ∉ l := by
  intro hm
  exact absurd (semverMatch_chars h '\n' hm) (by decide)

theorem dropPrefixL_append (p r : List Char) : dropPrefixL p (p ++ r) = some r := by
  induction p with
  | nil => rfl
  | cons a as ih => simp [dropPrefixL, ih]

theorem pull_lit_no_match_tag (r : List Char) :
    dropPrefixL "refs/pull/".data ("refs/tags/v".data ++ r) = none := rfl

theorem isNumIdent_ne_nil {l : List Char} (h : isNumIdent l = true) : l ≠ [] := by
  intro hl
  subst hl
  simp [isNumIdent] at h

/-- Characters of `a ++ "." ++ b ++ "." ++ c` with digit-only components:
any character that is neither a digit nor `'.'` does not occur. -/
theorem digits_mid_not_mem {a b c : List Char}
    (ha : ∀ x ∈ a, x.isDigit = true) (hb : ∀ x ∈ b, x.isDigit = true)
    (hc : ∀ x ∈ c, x.isDigit = true) {ch : Char}
    (hch : ch.isDigit = false) (hdot : ch ≠ '.') :
    ch ∉ a ++ '.' :: (b ++ '.' :: c) := by
  intro hm
  simp only [List.mem_append, List.mem_cons] at hm
  rcases hm with h | h | h | h | h
  · rw [ha _ h] at hch; cases hch
  · exact hdot h
  · rw [hb _ h] at hch; cases hch
  · exact hdot h
  · rw [hc _ h] at hch; cases hch

/-! ## Claims about `validate_semver.py` -/

/-- Claim C2 (corrected), counterexample: invoked on the single argument
`"1.2.3\n"`, which does not match the semver grammar (the trailing newline
is not part of it), the validator nevertheless exits with status 0,
because Python's `$` anchor also matches just before a trailing newline. -/
theorem c2_counterexample :
    validate_semver_main ["validate_semver.py", "1.2.3\n"] = 0 ∧
    semverStr "1.2.3\n" = false :=
  ⟨rfl, rfl⟩

/-- Claim C2 (amended): invoked with exactly one version argument, the
validator exits 0 exactly when the argument matches the semver grammar or
is such a match followed by one trailing newline, and exits 1 otherwise. -/
theorem c2_exit_status (p v : String) :
    (validate_semver_main [p, v] = 0 ↔
      semverStr v = true ∨ ∃ u : String, v = u ++ "\n" ∧ semverStr u = true) ∧
    (validate_semver_main [p, v] = 0 ∨ validate_semver_main [p, v] = 1) := by
  constructor
  · simp only [validate_semver_main]
    constructor
    · intro h0
      have hs : semverSearch v = true := by
        by_cases hs : semverSearch v
        · exact hs
        · rw [if_neg hs] at h0
          cases h0
      unfold semverSearch at hs
      by_cases hl : v.data.getLast? = some '\n'
      · right
        obtain ⟨ys, hys⟩ := List.getLast?_eq_some_iff.mp hl
        rw [hys, dropTrailingNewline_concat] at hs
        refine ⟨String.mk ys, String.ext ?_, ?_⟩
        · rw [hys]
          rfl
        · unfold semverStr
          exact hs
      · left
        rw [dropTrailingNewline_of_getLast hl] at hs
        exact hs
    · intro h
      rcases h with h | ⟨u, rfl, hu⟩
      · have hs : semverSearch v = true := by
          unfold semverStr at h
          obtain ⟨g, hg⟩ := Option.isSome_iff_exists.mp h
          have hnl := semverMatch_no_newline hg
          have hl : ¬ v.data.getLast? = some '\n' := by
            intro hl
            obtain ⟨ys, hys⟩ := List.getLast?_eq_some_iff.mp hl
            exact hnl (hys ▸ List.mem_append_right ys (List.mem_singleton_self _))
          unfold semverSearch
          rw [dropTrailingNewline_of_getLast hl]
          exact h
        rw [if_pos hs]
      · have hs : semverSearch (u ++ "\n") = true := by
          unfold semverSearch
          have : (u ++ "\n").data = u.data ++ ['\n'] := by rfl
          rw [this, dropTrailingNewline_concat]
          exact hu
        rw [if_pos hs]
  · simp only [validate_semver_main]
    by_cases hs : semverSearch v
    · rw [if_pos hs]
      exact Or.inl rfl
    · rw [if_neg hs]
      exact Or.inr rfl

/-! ## Claims about `get_release_version.py` -/

/-- Claim C1 (corrected), counterexample: the reference `refs/tags/v0`
matches neither the pull-request pattern nor the claimed version-tag
pattern `refs/tags/v<semver>` (the bare `0` is not a semantic version), so
the claim requires the fallback default outputs; the script instead treats
it as a tagged full release, with release channel `None.None`. -/
theorem c1_counterexample :
    pullPatternPrefix "refs/tags/v0" = false ∧
    pullRefMatch "refs/tags/v0" = none ∧
    tagVersionPattern "refs/tags/v0" = false ∧
    getReleaseVersion (some "refs/tags/v0") =
      [("REL_VERSION", "0"), ("CHART_VERSION", "0"),
       ("REL_CHANNEL", "None.None"), ("UPDATE_RELEASE", "true")] ∧
    getReleaseVersion (some "refs/tags/v0") ≠ defaultOutputs :=
  ⟨rfl, rfl, rfl, rfl, by decide⟩

/-- Claim C1 (amended): the release derivation applies the precedence
rules in a fixed order — pull-request match, then version-tag match, then
the fallback default — with the outputs the claim lists, where the
version-tag pattern is the script's tag regex (which, besides
`refs/tags/v<semver>`, also accepts the bare tag `refs/tags/v0` as a full
release whose channel renders the absent components as `None.None`, and,
like the pull-request pattern, tolerates one trailing newline). -/
theorem c1_precedence (gitRef : Option String) :
    getReleaseVersion gitRef =
      match gitRef with
      | none => defaultOutputs
      | some ref =>
        match pullRefMatch ref with
        | some g => prOutputs g.1.asString
        | none =>
          match tagRefMatch ref with
          | some m =>
            if m.prerelease.isNone then
              fullReleaseOutputs m.version.asString
                (pyFormatOpt m.major ++ "." ++ pyFormatOpt m.minor)
            else prereleaseOutputs m.version.asString
          | none => defaultOutputs := rfl

/-- Claim C7: the version/channel derivation is a pure function of the
source-control reference — equal references (including both absent) give
identical derived outputs. -/
theorem c7_deterministic (r1 r2 : Option String) (h : r1 = r2) :
    getReleaseVersion r1 = getReleaseVersion r2 := by rw [h]

/-- Witness for C7 at a concrete reference. -/
theorem c7_witness :
    (some "refs/pull/7/merge" : Option String) = some "refs/pull/7/merge" ∧
    getReleaseVersion (some "refs/pull/7/merge") =
      getReleaseVersion (some "refs/pull/7/merge") :=
  ⟨rfl, c7_deterministic (some "refs/pull/7/merge") (some "refs/pull/7/merge") rfl⟩

/-- Claim C8: the derivation is total — for every reference value
(including an absent one) it produces a defined value for each of the
release version, chart version and release channel fields. -/
theorem c8_total (gitRef : Option String) :
    ∃ v cv ch : String,
      List.lookup "REL_VERSION" (getReleaseVersion gitRef) = some v ∧
      List.lookup "CHART_VERSION" (getReleaseVersion gitRef) = some cv ∧
      List.lookup "REL_CHANNEL" (getReleaseVersion gitRef) = some ch := by
  cases gitRef with
  | none =>
    exact ⟨"edge", "0.42.42-dev", "edge", by simp [getReleaseVersion, List.lookup], by
      simp [getReleaseVersion, List.lookup], by simp [getReleaseVersion, List.lookup]⟩
  | some s =>
    cases hp : pullRefMatch s with
    | some g =>
      exact ⟨"pr-" ++ g.1.asString, "0.42.42-pr-" ++ g.1.asString, "edge", by
        simp [getReleaseVersion, hp, List.lookup], by
        simp [getReleaseVersion, hp, List.lookup], by
        simp [getReleaseVersion, hp, List.lookup]⟩
    | none =>
      cases ht : tagRefMatch s with
      | some m =>
        cases hpre : m.prerelease.isNone with
        | true =>
          exact ⟨m.version.asString, m.version.asString,
            pyFormatOpt m.major ++ "." ++ pyFormatOpt m.minor, by
            simp [getReleaseVersion, hp, ht, hpre, List.lookup], by
            simp [getReleaseVersion, hp, ht, hpre, List.lookup], by
            simp [getReleaseVersion, hp, ht, hpre, List.lookup]⟩
        | false =>
          exact ⟨m.version.asString, m.version.asString, m.version.asString, by
            simp [getReleaseVersion, hp, ht, hpre, List.lookup], by
            simp [getReleaseVersion, hp, ht, hpre, List.lookup], by
            simp [getReleaseVersion, hp, ht, hpre, List.lookup]⟩
      | none =>
        exact ⟨"edge", "0.42.42-dev", "edge", by
          simp [getReleaseVersion, hp, ht, List.lookup], by
          simp [getReleaseVersion, hp, ht, List.lookup], by
          simp [getReleaseVersion, hp, ht, List.lookup]⟩

/-- Claim C9: the derivation writes `UPDATE_RELEASE=true` exactly when the
reference matches the version-tag regex with no prerelease group (a tagged
full release); in every other case exactly the fields `REL_VERSION`,
`CHART_VERSION` and `REL_CHANNEL` are written, in that order, and no other
field. -/
theorem c9_frame (gitRef : Option String) :
    (getReleaseVersion gitRef).map Prod.fst =
      (if isFullReleaseTag gitRef then
        ["REL_VERSION", "CHART_VERSION", "REL_CHANNEL", "UPDATE_RELEASE"]
      else ["REL_VERSION", "CHART_VERSION", "REL_CHANNEL"]) ∧
    (isFullReleaseTag gitRef = true →
      List.lookup "UPDATE_RELEASE" (getReleaseVersion gitRef) = some "true") := by
  cases gitRef with
  | none => exact ⟨rfl, by simp [isFullReleaseTag]⟩
  | some s =>
    cases hp : pullRefMatch s with
    | some g =>
      have htag := tagRefMatch_of_pull hp
      constructor
      · simp [getReleaseVersion, hp, isFullReleaseTag, htag]
      · simp [isFullReleaseTag, htag]
    | none =>
      cases ht : tagRefMatch s with
      | some m =>
        cases hpre : m.prerelease.isNone with
        | true =>
          constructor
          · simp [getReleaseVersion, hp, ht, hpre, isFullReleaseTag]
          · intro _
            simp [getReleaseVersion, hp, ht, hpre, List.lookup]
        | false =>
          constructor
          · simp [getReleaseVersion, hp, ht, hpre, isFullReleaseTag]
          · simp [isFullReleaseTag, ht, hpre]
      | none =>
        constructor
        · simp [getReleaseVersion, hp, ht, isFullReleaseTag]
        · simp [isFullReleaseTag, ht]

/-- Witness for C9 at a concrete full-release tag and a concrete
non-tag reference. -/
theorem c9_witness :
    List.lookup "UPDATE_RELEASE" (getReleaseVersion (some "refs/tags/v1.2.3")) =
      some "true" ∧
    (getReleaseVersion (some "refs/heads/main")).map Prod.fst =
      ["REL_VERSION", "CHART_VERSION", "REL_CHANNEL"] :=
  ⟨(c9_frame (some "refs/tags/v1.2.3")).2 (by decide),
   by have h := (c9_frame (some "refs/heads/main")).1
      simpa using h⟩

/-- Claim C6: for every git reference of the exact form
`refs/tags/v<major>.<minor>.<patch>` with three numeric components and no
prerelease label, the release channel is `<major>.<minor>` while the
release version and the chart version are both the full
`<major>.<minor>.<patch>`, and `UPDATE_RELEASE=true` is written. -/
theorem c6_full_release (a b c : String)
    (ha : isNumIdent a.data = true) (hb : isNumIdent b.data = true)
    (hc : isNumIdent c.data = true) :
    getReleaseVersion (some ("refs/tags/v" ++ a ++ "." ++ b ++ "." ++ c)) =
      fullReleaseOutputs (a ++ "." ++ b ++ "." ++ c) (a ++ "." ++ b) := by
  have hdiga := isNumIdent_all_digit ha
  have hdigb := isNumIdent_all_digit hb
  have hdigc := isNumIdent_all_digit hc
  -- the character list of the reference after the literal prefix
  set R : List Char := a.data ++ '.' :: (b.data ++ '.' :: c.data) with hR
  have hSL : ("refs/tags/v" ++ a ++ "." ++ b ++ "." ++ c).data =
      "refs/tags/v".data ++ R := by
    simp only [String.data_append, hR, List.append_assoc]
    rfl
  have hplus : '+' ∉ R := digits_mid_not_mem hdiga hdigb hdigc (by decide) (by decide)
  have hminus : '-' ∉ R := digits_mid_not_mem hdiga hdigb hdigc (by decide) (by decide)
  have hnl : '\n' ∉ R := digits_mid_not_mem hdiga hdigb hdigc (by decide) (by decide)
  have hlast : ¬ ("refs/tags/v".data ++ R).getLast? = some '\n' := by
    intro hl
    obtain ⟨ys, hys⟩ := List.getLast?_eq_some_iff.mp hl
    have hmem : '\n' ∈ "refs/tags/v".data ++ R :=
      hys ▸ List.mem_append_right ys (List.mem_singleton_self _)
    rcases List.mem_append.mp hmem with h | h
    · revert h
      decide
    · exact hnl h
  have hdotA : '.' ∉ a.data := by
    intro hm
    have := hdiga _ hm
    rw [show ('.').isDigit = false from by decide] at this
    cases this
  have hdotB : '.' ∉ b.data := by
    intro hm
    have := hdigb _ hm
    rw [show ('.').isDigit = false from by decide] at this
    cases this
  have hdotC : '.' ∉ c.data := by
    intro hm
    have := hdigc _ hm
    rw [show ('.').isDigit = false from by decide] at this
    cases this
  have hsplit : splitOnChar '.' R = [a.data, b.data, c.data] := by
    rw [hR, splitOnChar_append hdotA, splitOnChar_append hdotB,
      splitOnChar_of_not_mem hdotC]
  have hnot0 : ¬ R = ['0'] := by
    intro h0
    rw [h0, splitOnChar_of_not_mem (by decide)] at hsplit
    simp at hsplit
  have hsem : semverMatch R = some ⟨a.data, b.data, c.data, none, none⟩ := by
    simp only [semverMatch, splitAtFirst_of_not_mem hplus,
      splitAtFirst_of_not_mem hminus, hsplit, ha, hb, hc, checkIdents,
      Bool.and_self, if_true]
  have htag : tagRefMatch ("refs/tags/v" ++ a ++ "." ++ b ++ "." ++ c) =
      some ⟨R, some a.data, some b.data, some c.data, none, none⟩ := by
    rw [tagRefMatch_def, hSL, dropTrailingNewline_of_getLast hlast,
      dropPrefixL_append]
    simp only [if_neg hnot0, hsem]
  have hpull : pullRefMatch ("refs/tags/v" ++ a ++ "." ++ b ++ "." ++ c) = none := by
    rw [pullRefMatch_def, hSL, dropTrailingNewline_of_getLast hlast,
      pull_lit_no_match_tag]
  have hver : R.asString = a ++ "." ++ b ++ "." ++ c := by
    apply String.ext
    simp only [String.data_append, hR, List.append_assoc]
    rfl
  have hcha : (pyFormatOpt (some a.data) ++ "." ++ pyFormatOpt (some b.data)) =
      a ++ "." ++ b := by
    apply String.ext
    simp only [pyFormatOpt, String.data_append]
    rfl
  have hSa : a.data.asString = a := String.ext rfl
  have hSb : b.data.asString = b := String.ext rfl
  simp [c1_precedence, hpull, htag, hver, hcha, pyFormatOpt, hSa, hSb]

/-- Witness for C6 at the concrete tag `refs/tags/v1.22.0`. -/
theorem c6_witness :
    isNumIdent "1".data = true ∧ isNumIdent "22".data = true ∧
    isNumIdent "0".data = true ∧
    getReleaseVersion (some ("refs/tags/v" ++ "1" ++ "." ++ "22" ++ "." ++ "0")) =
      fullReleaseOutputs ("1" ++ "." ++ "22" ++ "." ++ "0") ("1" ++ "." ++ "22") :=
  ⟨by decide, by decide, by decide,
   c6_full_release "1" "22" "0" (by decide) (by decide) (by decide)⟩

/-! ## Claims about `transform_test_results.py` -/

theorem transformTestcase_ok {repoRoot : String} {tc : XmlElem}
    (h : examinedTextOk tc = true) :
    transformTestcase repoRoot tc = .ok (specUpdateTestcase repoRoot tc) := by
  unfold examinedTextOk at h
  unfold transformTestcase specUpdateTestcase
  cases hf : findFailure tc.children with
  | none => rfl
  | some f =>
    simp only [hf] at h
    dsimp only
    cases ht : f.text with
    | none => simp [ht] at h
    | some t =>
      dsimp only
      cases hs : searchErrorTrace t.data with
      | none => rfl
      | some g =>
        dsimp only
        by_cases hp : repoRoot.data.isPrefixOf g.1
        · simp [hp]
        · simp [hp]

theorem exceptList_ok {f : XmlElem → Except String XmlElem}
    {g : XmlElem → XmlElem} {xs : List XmlElem}
    (h : ∀ x ∈ xs, f x = .ok (g x)) :
    exceptList f xs = .ok (xs.map g) := by
  induction xs with
  | nil => rfl
  | cons x xs ih =>
    simp only [exceptList, h x (List.mem_cons_self x xs),
      ih fun y hy => h y (List.mem_cons_of_mem x hy), List.map_cons]

/-- Claim C3 (corrected), counterexample: a well-formed report whose first
testcase carries a matching error trace under the repository root and
whose second testcase has a text-less failure element.  The claim requires
the first testcase to get repository-relative `file`/`line` attributes
(and the second to stay unchanged); the script instead raises `TypeError`
out of `main` and writes nothing. -/
theorem c3_counterexample :
    transform_main "/repo" (.wellFormed c3Doc) ≠
      RunResult.wrote (specTransformDoc "/repo" c3Doc) := by
  intro hEq
  have heval : transform_main "/repo" (.wellFormed c3Doc) =
      RunResult.raised "TypeError: expected string or bytes-like object" := rfl
  rw [heval] at hEq
  exact RunResult.noConfusion hEq

/-- Claim C3 (amended): for every well-formed report in which each
examined failure element (the first `failure` child of a
`testsuite`/`testcase` element) carries text, the transformer writes the
document in which exactly the testcases whose failure text yields an
`\tError Trace:\t<path>:<line>` match with `<path>` under the repository
root get `file` (the repository-relative path) and `line` attributes on
the testcase and on its failure element, and every other element is left
unchanged. -/
theorem c3_rewrites (repoRoot : String) (doc : XmlElem)
    (h : docTextOk doc = true) :
    transform_main repoRoot (.wellFormed doc) =
      .wrote (specTransformDoc repoRoot doc) := by
  have hsu : ∀ su ∈ doc.children, transformSuite repoRoot su =
      .ok (if su.tag == "testsuite" then
            { su with children := su.children.map fun tc =>
                if tc.tag == "testcase" then specUpdateTestcase repoRoot tc
                else tc }
          else su) := by
    intro su hmem
    unfold docTextOk at h
    have hsub := List.all_eq_true.mp h su hmem
    by_cases hst : (su.tag == "testsuite") = true
    · simp only [hst, Bool.not_true, Bool.false_or] at hsub
      unfold transformSuite
      have hinner : ∀ tc ∈ su.children,
          (if tc.tag == "testcase" then transformTestcase repoRoot tc
           else .ok tc) =
            .ok (if tc.tag == "testcase" then specUpdateTestcase repoRoot tc
                 else tc) := by
        intro tc htc
        by_cases hc : (tc.tag == "testcase") = true
        · simp only [hc, if_true]
          apply transformTestcase_ok
          have := List.all_eq_true.mp hsub tc htc
          simpa [hc] using this
        · simp [hc]
      rw [if_pos hst, @exceptList_ok _
        (fun tc => if tc.tag == "testcase" then specUpdateTestcase repoRoot tc
                   else tc) _ hinner, if_pos hst]
    · simp [transformSuite, hst]
  have hdoc : transformDoc repoRoot doc = .ok (specTransformDoc repoRoot doc) := by
    unfold transformDoc specTransformDoc
    rw [@exceptList_ok _ (fun su =>
      if su.tag == "testsuite" then
        { su with children := su.children.map fun tc =>
            if tc.tag == "testcase" then specUpdateTestcase repoRoot tc
            else tc }
      else su) _ hsu]
  unfold transform_main
  dsimp only
  rw [hdoc]

/-- Witness for C3 on a concrete report containing a matching testcase, a
testcase whose trace path lies outside the repository root, and a passing
testcase. -/
theorem c3_witness :
    docTextOk c3WitnessDoc = true ∧
    transform_main "/repo" (.wellFormed c3WitnessDoc) =
      .wrote (specTransformDoc "/repo" c3WitnessDoc) :=
  ⟨rfl, c3_rewrites "/repo" c3WitnessDoc rfl⟩

/-- Claim C4 (code bug): the tolerated malformed inputs (missing, empty,
unparsable file) are indeed skipped without writing, but a well-formed
report whose examined failure element has no text makes
`pattern.search(failure.text)` raise an uncaught `TypeError` — the only
`try`/`except` blocks wrap the parse and the final write, not the loop —
contradicting the script's skip-malformed-input intent. -/
theorem c4_uncaught_typeerror :
    transform_main "/repo" .missing = .skipped ∧
    transform_main "/repo" .empty = .skipped ∧
    transform_main "/repo" .malformed = .skipped ∧
    transform_main "/repo" (.wellFormed c4Doc) =
      .raised "TypeError: expected string or bytes-like object" :=
  ⟨rfl, rfl, rfl, rfl⟩

/-! ## Claims about `publish-test-terraform-recipes.py` -/

theorem find?_append_of_none {α : Type} {p : α → Bool} {l1 l2 : List α}
    (h : l1.find? p = none) : (l1 ++ l2).find? p = l2.find? p := by
  induction l1 with
  | nil => rfl
  | cons a as ih =>
    cases ha : p a with
    | true =>
      rw [List.find?_cons_of_pos _ ha] at h
      cases h
    | false =>
      rw [List.cons_append, List.find?_cons_of_neg _ (by simp [ha])]
      rw [List.find?_cons_of_neg _ (by simp [ha])] at h
      exact ih h

theorem delete_find?_none (cl : Cluster) (ns nm : String) :
    (kubectlDeleteConfigMap cl ns nm).find?
      (fun e => e.1.1 == ns && e.1.2 == nm) = none := by
  apply List.find?_eq_none.mpr
  intro x hx
  have hmem := (List.mem_filter.mp hx).2
  simp only [Bool.not_eq_true'] at hmem
  simp [hmem]

theorem foldl_dictInsert :
    ∀ (items : List DirEntry) (acc : ConfigData),
      (∀ e ∈ items, ∀ p ∈ acc, p.1 ≠ e.name) →
      (items.map fun e => e.name).Nodup →
      items.foldl (fun d e => dictInsert d e.name (makeZipArchive e.tree)) acc
        = acc ++ items.map fun e => (e.name, makeZipArchive e.tree) := by
  intro items
  induction items with
  | nil =>
    intro acc _ _
    simp
  | cons e es ih =>
    intro acc hdisj hnodup
    have hnot : (acc.any fun p => p.1 == e.name) = false := by
      cases hany : acc.any fun p => p.1 == e.name
      · rfl
      · obtain ⟨p, hp, hpe⟩ := List.any_eq_true.mp hany
        exact absurd (by simpa using hpe)
          (hdisj e (List.mem_cons_self e es) p hp)
    have hstep : dictInsert acc e.name (makeZipArchive e.tree) =
        acc ++ [(e.name, makeZipArchive e.tree)] := by
      unfold dictInsert
      rw [hnot, if_neg Bool.false_ne_true]
    have hnodup' : (es.map fun e => e.name).Nodup :=
      (List.nodup_cons.mp (by simpa using hnodup)).2
    have hnotmem : e.name ∉ es.map fun e => e.name :=
      (List.nodup_cons.mp (by simpa using hnodup)).1
    rw [List.foldl_cons, hstep,
      ih (acc ++ [(e.name, makeZipArchive e.tree)]) ?_ hnodup']
    · simp
    · intro e' he' p hp
      rcases List.mem_append.mp hp with hpa | hpe
      · exact hdisj e' (List.mem_cons_of_mem e he') p hpa
      · have hpe' : p = (e.name, makeZipArchive e.tree) := by simpa using hpe
        subst hpe'
        intro hcontra
        have hcontra' : e.name = e'.name := hcontra
        rw [hcontra'] at hnotmem
        exact hnotmem (List.mem_map_of_mem (fun e => e.name) he')

/-- Claim C5: after a successful run on a recipe root with at least one
subdirectory (with the distinct names a directory listing guarantees), the
target ConfigMap holds exactly one `<basename>.zip ↦ archive` entry per
recipe subdirectory, in scandir order; the old object of that name was
deleted before the create, so none of its entries survive. -/
theorem c5_replaces (rootEntries : List DirEntry) (ns nm : String)
    (cl : Cluster)
    (h1 : rootEntries.filter (fun e => e.isDir) ≠ [])
    (h2 : ((rootEntries.filter fun e => e.isDir).map fun e => e.name).Nodup) :
    (publish rootEntries ns nm cl).exitCode = 0 ∧
    (publish rootEntries ns nm cl).commands =
      [KubeCmd.delete ns nm,
       KubeCmd.create ns nm ((rootEntries.filter fun e => e.isDir).map
         fun e => (e.name ++ ".zip", makeZipArchive e.tree))] ∧
    configLookup (publish rootEntries ns nm cl).cluster ns nm =
      some ((rootEntries.filter fun e => e.isDir).map
        fun e => (e.name ++ ".zip", makeZipArchive e.tree)) := by
  have hentries : publishEntries rootEntries =
      (rootEntries.filter fun e => e.isDir).map
        fun e => (e.name ++ ".zip", makeZipArchive e.tree) := by
    unfold publishEntries configEntriesOf
    rw [foldl_dictInsert _ [] (by intro e _ p hp; cases hp) h2]
    simp [List.map_map]
  have hempty : (rootEntries.filter fun e => e.isDir).isEmpty = false := by
    cases hfil : rootEntries.filter fun e => e.isDir
    · exact absurd hfil h1
    · rfl
  have hanyfalse : ((kubectlDeleteConfigMap cl ns nm).any
      fun e => e.1.1 == ns && e.1.2 == nm) = false := by
    cases hany : (kubectlDeleteConfigMap cl ns nm).any
        fun e => e.1.1 == ns && e.1.2 == nm
    · rfl
    · obtain ⟨x, hx, hpx⟩ := List.any_eq_true.mp hany
      have hmem := (List.mem_filter.mp hx).2
      rw [hpx] at hmem
      simp at hmem
  have hcreate : kubectlCreateConfigMap (kubectlDeleteConfigMap cl ns nm) ns nm
      (publishEntries rootEntries) =
      .ok (kubectlDeleteConfigMap cl ns nm ++
        [((ns, nm), publishEntries rootEntries)]) := by
    unfold kubectlCreateConfigMap
    rw [hanyfalse, if_neg Bool.false_ne_true]
  have hpub : publish rootEntries ns nm cl =
      { exitCode := 0
        commands := [.delete ns nm, .create ns nm (publishEntries rootEntries)]
        cluster := kubectlDeleteConfigMap cl ns nm ++
          [((ns, nm), publishEntries rootEntries)] } := by
    unfold publish
    rw [hempty, if_neg Bool.false_ne_true, hcreate]
  rw [hpub]
  refine ⟨rfl, by simp [hentries], ?_⟩
  unfold configLookup
  rw [find?_append_of_none (delete_find?_none cl ns nm),
    List.find?_cons_of_pos _ (by simp)]
  simp [hentries]

/-- Witness for C5: a concrete recipe root with two recipe directories and
a plain file, published over a cluster already holding a stale ConfigMap
of the target name. -/
theorem c5_witness :
    wRecipeRoot.filter (fun e => e.isDir) ≠ [] ∧
    ((wRecipeRoot.filter fun e => e.isDir).map fun e => e.name).Nodup ∧
    configLookup (publish wRecipeRoot "radius-test" "recipes" wCluster).cluster
        "radius-test" "recipes" =
      some [("redis.zip", makeZipArchive redisTree),
            ("postgres.zip", makeZipArchive postgresTree)] := by
  refine ⟨by decide, by decide, ?_⟩
  have h := (c5_replaces wRecipeRoot "radius-test" "recipes" wCluster
    (by decide) (by decide)).2.2
  rw [h]
  rfl

/-- Claim C10: on a recipe root without subdirectories the publisher exits
with status 1 before issuing any kubectl command, leaving the cluster — in
particular any existing ConfigMap of the target name — unchanged. -/
theorem c10_empty_exits (rootEntries : List DirEntry) (ns nm : String)
    (cl : Cluster) (h : rootEntries.filter (fun e => e.isDir) = []) :
    publish rootEntries ns nm cl =
      { exitCode := 1, commands := [], cluster := cl } := by
  unfold publish
  rw [h]
  rfl

/-- Witness for C10: a recipe root holding only a plain file, over a
cluster with an existing ConfigMap of the target name. -/
theorem c10_witness :
    wEmptyRoot.filter (fun e => e.isDir) = [] ∧
    publish wEmptyRoot "radius-test" "recipes" wCluster =
      { exitCode := 1, commands := [], cluster := wCluster } :=
  ⟨by decide,
   c10_empty_exits wEmptyRoot "radius-test" "recipes" wCluster (by decide)⟩

end RadiusScripts
